import Mathlib

/-!
# Verification of the dev-orchestrator core

A shallow embedding, in Lean 4, of the orchestration core of the
`dev-orchestrator` repository, together with theorems settling the frozen
claims about it.

Embedding conventions:
* The working copy is modelled as a finite map from repository-relative paths
  to file contents (`FS`, an association list).  Directory creation
  (`mkdir(parents=True)`) has no observable effect in this model beyond the
  file write itself.
* Subprocess invocations of the version-control layer are modelled by an
  explicit outcome value (`ProcOutcome`): either the process finished with an
  exit code and captured output, or it timed out.  Functions of the git layer
  take the outcome(s) of their underlying invocations as parameters.
* Python functions that raise are modelled with `Except`; the raised
  exception is the `.error` case.
* Wall-clock timestamps (`datetime.now()`) and `updated_at` fields are
  elided: they are environment inputs that no claim depends on.
* Python `str.lower()` / `str.strip()` and friends are modelled by the
  structural `pyLower` / `pyStrip` / `pyStartsWith` / `pyTake` / `pyDrop`
  defined below (they agree with Python on the ASCII data manipulated here).
-/

/-! ## Filesystem model -/

/-- The working copy: an association list from paths to file contents.
The first entry for a path is its content; well-formed states have at most
one entry per path, and all operations below preserve that. -/
abbrev FS := List (String × String)

/-- Content of `path`, if the file exists. -/
def fsGet (fs : FS) (path : String) : Option String :=
  match fs with
  | [] => none
  | (p, c) :: rest => if p = path then some c else fsGet rest path

/-- Models `Path.exists()`. -/
def fsExists (fs : FS) (path : String) : Bool :=
  (fsGet fs path).isSome

/-- Models `Path.write_text` (with any needed `mkdir(parents=True)`):
overwrites the file if present, creates it otherwise. -/
def fsWrite (fs : FS) (path content : String) : FS :=
  match fs with
  | [] => [(path, content)]
  | (p, c) :: rest =>
      if p = path then (p, content) :: rest else (p, c) :: fsWrite rest path content

/-- Models `Path.unlink()` of an existing file (and is the identity when the
file is absent). -/
def fsDelete (fs : FS) (path : String) : FS :=
  match fs with
  | [] => []
  | (p, c) :: rest => if p = path then fsDelete rest path else (p, c) :: fsDelete rest path

/-! ## Python string primitives

Structural (kernel-evaluable) models of the Python string operations the
source uses. -/

/-- Python `str.lower()` on one character (the data here is ASCII). -/
def pyLowerChar (c : Char) : Char :=
  if 'A' ≤ c ∧ c ≤ 'Z' then Char.ofNat (c.toNat + 32) else c

/-- Python `str.lower()`. -/
def pyLower (s : String) : String :=
  String.mk (s.toList.map pyLowerChar)

/-- Python `str.strip()`: removes leading and trailing whitespace. -/
def pyStrip (s : String) : String :=
  String.mk (((s.toList.dropWhile Char.isWhitespace).reverse.dropWhile
    Char.isWhitespace).reverse)

/-- Python `str.startswith(p)`. -/
def pyStartsWith (s p : String) : Bool :=
  p.toList.isPrefixOf s.toList

/-- Python `len(s)` (code points). -/
def pyLen (s : String) : Nat :=
  s.toList.length

/-- Python `s[:n]`. -/
def pyTake (s : String) (n : Nat) : String :=
  String.mk (s.toList.take n)

/-- Python `s[n:]`. -/
def pyDrop (s : String) (n : Nat) : String :=
  String.mk (s.toList.drop n)

/-! ## Version-control safety layer (`core/git_ops.py`) -/

/-- Outcome of one `subprocess.run` of the git executable. -/
inductive ProcOutcome where
  | finished (returncode : Int) (stdout stderr : String)
  | timedOut
  deriving DecidableEq, Repr

/-- Models `GitResult` — result of a git command execution (`git_ops.py`). -/
structure GitResult where
  success : Bool
  stdout : String
  stderr : String
  returncode : Int
  command : List String
  deriving DecidableEq, Repr

/-- Models `GitError` — exception for git operation failures (`git_ops.py`).
`returncode` defaults to 1 and `stderr` to `""` in the source. -/
structure GitError where
  message : String
  returncode : Int := 1
  stderr : String := ""
  deriving DecidableEq, Repr

/-- The configured git executable (`OrchestratorConfig.git_executable`
default). -/
def gitExecutable : String := "git"

namespace GitOps

/-- Models `GitOps.PROTECTED_BRANCHES`. -/
def PROTECTED_BRANCHES : List String := ["main", "master", "develop", "production"]

/-- Models `GitOps.is_protected_branch`. -/
def is_protected_branch (branch : String) : Bool :=
  PROTECTED_BRANCHES.contains branch

/-- Models `GitOps._run_git`: builds the command, runs the subprocess (whose outcome
is the explicit `outcome` parameter), and either returns a `GitResult` or
raises `GitError` (when `check` is set and the exit code is non-zero, or on
timeout). -/
def run_git (args : List String) (check : Bool) (outcome : ProcOutcome) :
    Except GitError GitResult :=
  let cmd := gitExecutable :: args
  match outcome with
  | .finished returncode stdout stderr =>
      let git_result : GitResult :=
        { success := returncode == 0
          stdout := pyStrip stdout
          stderr := pyStrip stderr
          returncode := returncode
          command := cmd }
      if check && !git_result.success then
        .error
          { message := "Git command failed: " ++ " ".intercalate args ++ "\n" ++ git_result.stderr
            returncode := returncode
            stderr := git_result.stderr }
      else
        .ok git_result
  | .timedOut =>
      .error { message := "Git command timed out: " ++ " ".intercalate args }

/-- Abstract state of the repository's branch structure: the branch currently
checked out and the set of existing local branches. -/
structure GitState where
  currentBranch : String
  branches : List String
  deriving DecidableEq, Repr

/-- Models `GitOps.branch_exists`: the `rev-parse --verify` probe succeeds exactly
for the locally existing branches. -/
def branch_exists (st : GitState) (branch : String) : Bool :=
  st.branches.contains branch

/-- Models `GitOps.commit`: refuses (raises `GitError`) when the current branch is
protected; otherwise issues `git commit -m <message>` (plus `--allow-empty`
when requested) with `check=False`, returning its structured result.
`commitOutcome` is the outcome of that subprocess. -/
def commit (st : GitState) (message : String) (allow_empty : Bool)
    (commitOutcome : ProcOutcome) : Except GitError GitResult :=
  let current_branch := st.currentBranch
  if is_protected_branch current_branch then
    .error { message := "Cannot commit directly to protected branch: " ++ current_branch }
  else
    let args := ["commit", "-m", message] ++ (if allow_empty then ["--allow-empty"] else [])
    run_git args false commitOutcome

/-- Models `GitOps.create_branch`: refuses protected names and names of existing
branches; otherwise checks out the base branch (`base` stands for
`base_branch or self.get_default_branch()`), best-effort pulls, and creates
the branch with `git checkout -b`.  The three `ProcOutcome` parameters are
the outcomes of those three subprocesses. -/
def create_branch (st : GitState) (branch_name : String) (base : String)
    (checkoutOutcome pullOutcome checkoutBOutcome : ProcOutcome) :
    Except GitError GitResult := do
  if is_protected_branch branch_name then
    .error { message := "Cannot create branch with protected name: " ++ branch_name }
  else if branch_exists st branch_name then
    .error { message := "Branch already exists: " ++ branch_name }
  else do
    let _ ← run_git ["checkout", base] true checkoutOutcome
    let _ ← run_git ["pull", "--ff-only"] false pullOutcome
    run_git ["checkout", "-b", branch_name] true checkoutBOutcome

/-- Models `GitOps.get_diff`: a read operation issued with the default
`check=True`. -/
def get_diff (staged : Bool) (file_path : Option String) (outcome : ProcOutcome) :
    Except GitError String := do
  let args := ["diff"]
  let args := args ++ (if staged then ["--staged"] else [])
  let args := args ++ (match file_path with
    | some fp => ["--", fp]
    | none => [])
  let result ← run_git args true outcome
  .ok result.stdout

end GitOps

/-! ## Run ledger (`core/run_context.py`) -/

/-- Models `RunStatus` — status of a run. -/
inductive RunStatus where
  | pending
  | planning
  | executing
  | completed
  | failed
  | aborted
  deriving DecidableEq, Repr

/-- The string `.value` of each `RunStatus` member. -/
def RunStatus.value : RunStatus → String
  | .pending => "pending"
  | .planning => "planning"
  | .executing => "executing"
  | .completed => "completed"
  | .failed => "failed"
  | .aborted => "aborted"

/-- One entry of `RunContext.logs` (the `datetime.now()` timestamp is
elided). -/
structure LogEntry where
  level : String
  message : String
  deriving DecidableEq, Repr

/-- Models `RunContext`, restricted to the fields the mutators below touch
(`run_id`, `goal`, paths, timestamps and artifacts are carried unchanged by
them). -/
structure RunContext where
  status : RunStatus
  logs : List LogEntry
  errors : List String
  deriving DecidableEq, Repr

namespace RunContext

/-- Models `RunContext.log`: appends a log entry (and refreshes `updated_at`,
elided here). -/
def log (ctx : RunContext) (level message : String) : RunContext :=
  { ctx with logs := ctx.logs ++ [{ level := level, message := message }] }

/-- Models `RunContext.add_error`: records the error and logs it at level ERROR. -/
def add_error (ctx : RunContext) (error : String) : RunContext :=
  ({ ctx with errors := ctx.errors ++ [error] } : RunContext).log "ERROR" error

/-- Models `RunContext.set_status`: unconditionally assigns the new status and logs
one "Status changed to ..." line — there is no transition validation and no
idempotence check in the source. -/
def set_status (ctx : RunContext) (status : RunStatus) : RunContext :=
  let v := status.value
  ({ ctx with status := status } : RunContext).log "INFO" ("Status changed to " ++ v)

/-- A sequence of `set_status` calls, in order. -/
def set_status_seq (ctx : RunContext) (statuses : List RunStatus) : RunContext :=
  statuses.foldl set_status ctx

end RunContext

/-! ## Task planner (`core/planner.py`) -/

/-- Bool test for `needle` occurring contiguously in `haystack`
(a list-of-chars rendering of Python's `needle in haystack`). -/
def occursIn (needle : List Char) : List Char → Bool
  | [] => needle.isEmpty
  | c :: rest => needle.isPrefixOf (c :: rest) || occursIn needle rest

/-- Python's substring test `needle in haystack`. -/
def pyIn (needle haystack : String) : Bool :=
  occursIn needle.toList haystack.toList

namespace Planner

/-- Models `Planner.KEYWORDS`, in source (insertion) order. -/
def KEYWORDS : List (String × List String) :=
  [ ("endpoint", ["implement", "test", "document"])
  , ("api", ["design", "implement", "test", "document"])
  , ("test", ["analyze", "implement", "test"])
  , ("refactor", ["analyze", "design", "implement", "test"])
  , ("fix", ["analyze", "implement", "test"])
  , ("bug", ["analyze", "implement", "test"])
  , ("feature", ["design", "implement", "test", "document"])
  , ("add", ["design", "implement", "test", "document"])
  , ("create", ["design", "implement", "test", "document"])
  , ("update", ["analyze", "implement", "test"])
  , ("documentation", ["analyze", "document"])
  , ("healthcheck", ["design", "implement", "test", "document"])
  , ("health", ["design", "implement", "test"]) ]

/-- The fixed total order of task types used by `_detect_task_types`. -/
def ordered_types : List String :=
  ["analyze", "design", "implement", "test", "document", "review", "validate"]

/-- The default workflow used when no keyword matches. -/
def default_types : List String :=
  ["analyze", "design", "implement", "test", "validate"]

/-- The set of task types detected from the goal's keywords (a list with set
membership semantics, mirroring the Python `set.update` loop). -/
def detected_types (goal : String) : List String :=
  let goal_lower := pyLower goal
  KEYWORDS.foldl
    (fun acc kv => if pyIn kv.1 goal_lower then acc ++ kv.2.filter (fun t => !acc.contains t) else acc)
    []

/-- Models `Planner._detect_task_types`: keyword detection, default workflow
fallback, then projection onto the fixed total order. -/
def detect_task_types (goal : String) : List String :=
  let detected := detected_types goal
  let detected := if detected.isEmpty then default_types else detected
  ordered_types.filter (fun t => detected.contains t)

/-- The `role` field of `Planner.TASK_TEMPLATES`, per task type. -/
def template_role : String → String
  | "analyze" => "architect"
  | "design" => "architect"
  | "implement" => "implementer"
  | "test" => "tester"
  | "document" => "documenter"
  | "review" => "architect"
  | "validate" => "tester"
  | _ => ""

/-- The `title_template` of `Planner.TASK_TEMPLATES`, applied to the goal
summary. -/
def template_title (task_type goal_summary : String) : String :=
  match task_type with
  | "analyze" => "Analyze codebase for " ++ goal_summary
  | "design" => "Design solution for " ++ goal_summary
  | "implement" => "Implement " ++ goal_summary
  | "test" => "Create tests for " ++ goal_summary
  | "document" => "Document " ++ goal_summary
  | "review" => "Review changes for " ++ goal_summary
  | "validate" => "Validate " ++ goal_summary
  | _ => ""

/-- The `description_template` of `Planner.TASK_TEMPLATES`, applied to the
goal. -/
def template_description (task_type goal : String) : String :=
  match task_type with
  | "analyze" => "Review existing code structure and identify relevant files and patterns for: " ++ goal
  | "design" => "Create technical design and identify changes needed for: " ++ goal
  | "implement" => "Write or modify code to implement: " ++ goal
  | "test" => "Write and run tests to verify: " ++ goal
  | "document" => "Update documentation and changelog for: " ++ goal
  | "review" => "Review all changes made and ensure quality for: " ++ goal
  | "validate" => "Run final validation and create summary for: " ++ goal
  | _ => ""

/-- The prefixes removed by `Planner._extract_goal_summary`. -/
def summary_prefixes : List String :=
  ["aggiungi", "add", "create", "implement", "fix", "update"]

/-- Everything before the last space of `s` (Python `s.rsplit(" ", 1)[0]`). -/
def beforeLastSpace (s : String) : String :=
  let rev := s.toList.reverse
  let afterSep := rev.dropWhile (fun c => c != ' ')
  match afterSep with
  | [] => s
  | _ :: kept => String.mk kept.reverse

/-- Models `Planner._extract_goal_summary` (with the default `max_length = 50`). -/
def extract_goal_summary (goal : String) : String :=
  let max_length := 50
  let summary := pyLower goal
  let summary :=
    match summary_prefixes.find? (fun p => pyStartsWith summary p) with
    | some p => pyStrip (pyDrop summary (pyLen p))
    | none => summary
  if pyLen summary > max_length then
    beforeLastSpace (pyTake summary max_length) ++ "..."
  else
    summary

/-- Python `f"{n:02d}"`. -/
def pad2 (n : Nat) : String :=
  if n < 10 then "0" ++ toString n else toString n

/-- A task of the execution plan (`planner.Task`).  The `type` field holds
the `TaskType` enum's string value; `status`, `inputs`, `outputs` and the
timestamps are elided (all tasks are created `pending` with empty bags). -/
structure PlanTask where
  id : String
  type : String
  title : String
  description : String
  role : String
  dependencies : List String
  deriving DecidableEq, Repr

/-- The task-construction loop of `Planner.create_plan`: `i` is the
enumeration index, `prev` the id of the previously created task. -/
def mkTasks (goal goal_summary : String) : List String → Nat → Option String → List PlanTask
  | [], _, _ => []
  | task_type :: rest, i, prev =>
      let task_id := "task_" ++ pad2 (i + 1) ++ "_" ++ task_type
      let task : PlanTask :=
        { id := task_id
          type := task_type
          title := template_title task_type goal_summary
          description := template_description task_type goal
          role := template_role task_type
          dependencies := match prev with
            | some p => [p]
            | none => [] }
      task :: mkTasks goal goal_summary rest (i + 1) (some task_id)

/-- Models `planner.Plan` (creation time elided; metadata kept). -/
structure Plan where
  goal : String
  tasks : List PlanTask
  detected_types : List String
  goal_summary : String
  deriving DecidableEq, Repr

/-- Models `Planner.create_plan`. -/
def create_plan (goal : String) : Plan :=
  let goal_summary := extract_goal_summary goal
  let task_types := detect_task_types goal
  { goal := goal
    tasks := mkTasks goal goal_summary task_types 0 none
    detected_types := task_types
    goal_summary := goal_summary }

end Planner

/-! ## Multi-agent workflow (`agents/base_agent.py`, `agents/workflow.py`) -/

/-- Models `FileChange` (pydantic model): a proposed file change. -/
structure FileChange where
  path : String
  action : String
  content : String
  description : String
  deriving DecidableEq, Repr

/-- Models `AgentOutput` (pydantic model): structured output from an agent. -/
structure AgentOutput where
  success : Bool
  summary : String
  reasoning : String
  file_changes : List FileChange := []
  recommendations : List String := []
  issues : List String := []
  deriving DecidableEq, Repr

/-- Models `AgentState`: the shared state flowing through the workflow graph
(`repo_path`, `repo_context` and `messages` are opaque to the modelled
functions and elided). -/
structure AgentState where
  goal : String
  architect_output : Option AgentOutput
  implementer_output : Option AgentOutput
  tester_output : Option AgentOutput
  documenter_output : Option AgentOutput
  reviewer_output : Option AgentOutput
  all_file_changes : List FileChange
  all_issues : List String
  all_recommendations : List String
  current_phase : String
  errors : List String
  deriving DecidableEq, Repr

/-- Models `workflow.create_initial_state`. -/
def create_initial_state (goal : String) : AgentState :=
  { goal := goal
    architect_output := none
    implementer_output := none
    tester_output := none
    documenter_output := none
    reviewer_output := none
    all_file_changes := []
    all_issues := []
    all_recommendations := []
    current_phase := "init"
    errors := [] }

/-- Models `workflow._error_output`: the failure `AgentOutput` substituted for a
worker whose `asyncio.gather` slot returned an exception (`error` is the
exception's string rendering). -/
def error_output (agent_name : String) (error : String) : AgentOutput :=
  { success := false
    summary := agent_name ++ " failed: " ++ error
    reasoning := "Agent execution failed with exception"
    issues := [error] }

/-- The outcome of one parallel worker's `asyncio.gather` slot under
`return_exceptions=True`: either its `AgentOutput` or the exception it
raised (rendered as a string). -/
abbrev WorkerResult := Except String AgentOutput

/-- The per-slot conversion in `parallel_agents_node`:
`results[i] if not isinstance(results[i], Exception) else _error_output(...)`. -/
def resolve_worker (agent_name : String) (r : WorkerResult) : AgentOutput :=
  match r with
  | .ok output => output
  | .error e => error_output agent_name e

/-- Models `workflow.architect_node`: phase one.  `output` is what
`ArchitectAgent.execute` returned. -/
def architect_node (state : AgentState) (output : AgentOutput) : AgentState :=
  { state with
    architect_output := some output
    current_phase := "architect_done" }

/-- Models `workflow.parallel_agents_node`: phase two.  The three parameters are the
three workers' gathered outcomes (exception or output); each exception is
converted to that worker's failure output, and all three slots of the state
are filled. -/
def parallel_agents_node (state : AgentState)
    (implementer_result tester_result documenter_result : WorkerResult) : AgentState :=
  let implementer_output := resolve_worker "implementer" implementer_result
  let tester_output := resolve_worker "tester" tester_result
  let documenter_output := resolve_worker "documenter" documenter_result
  { state with
    implementer_output := some implementer_output
    tester_output := some tester_output
    documenter_output := some documenter_output
    current_phase := "parallel_done" }

/-- The `previous_outputs` dict built by `reviewer_node`, in its insertion
order (architect, implementer, tester, documenter — present ones only). -/
def previous_outputs (state : AgentState) : List AgentOutput :=
  ([state.architect_output, state.implementer_output,
    state.tester_output, state.documenter_output]).filterMap id

/-- Models `workflow.reviewer_node`: phase three.  `output` is what
`ReviewerAgent.execute` returned; the aggregates concatenate every previous
output's lists and then the reviewer's. -/
def reviewer_node (state : AgentState) (output : AgentOutput) : AgentState :=
  let prev := previous_outputs state
  { state with
    reviewer_output := some output
    all_file_changes := (prev.map (·.file_changes)).flatten ++ output.file_changes
    all_issues := (prev.map (·.issues)).flatten ++ output.issues
    all_recommendations := (prev.map (·.recommendations)).flatten ++ output.recommendations
    current_phase := "complete" }

/-- Models `workflow.run_workflow`: the fixed 1→N→1 sequencing — architect, then
the parallel fan-out, then the reviewer. -/
def run_workflow (goal : String) (architect_out : AgentOutput)
    (implementer_result tester_result documenter_result : WorkerResult)
    (reviewer_out : AgentOutput) : AgentState :=
  let state := create_initial_state goal
  let state := architect_node state architect_out
  let state := parallel_agents_node state implementer_result tester_result documenter_result
  reviewer_node state reviewer_out

/-! ## Aggregator/applier, multi-agent mode (`agents/agent_executor.py`) -/

namespace AgentExecutor

/-- Models `AgentExecutor._apply_single_change`: `create` writes the file (parents
as needed), `modify` overwrites if present and creates otherwise, `delete`
unlinks if present; any other action falls through every branch and performs
no file operation. -/
def apply_single_change (fs : FS) (change : FileChange) : FS :=
  if change.action = "create" then
    fsWrite fs change.path change.content
  else if change.action = "modify" then
    if fsExists fs change.path then
      fsWrite fs change.path change.content
    else
      fsWrite fs change.path change.content
  else if change.action = "delete" then
    if fsExists fs change.path then fsDelete fs change.path else fs
  else
    fs

/-- Insertion into the Python dict `changes_by_path`: an existing key keeps
its position and is given the new value, a new key is appended. -/
def dictInsert (m : List (String × FileChange)) (k : String) (v : FileChange) :
    List (String × FileChange) :=
  if m.any (fun e => e.1 = k) then
    m.map (fun e => if e.1 = k then (k, v) else e)
  else
    m ++ [(k, v)]

/-- First value for key `k` in the dict. -/
def dictGet (m : List (String × FileChange)) (k : String) : Option FileChange :=
  match m with
  | [] => none
  | (p, v) :: rest => if p = k then some v else dictGet rest k

/-- The deduplication loop of `apply_file_changes`:
`for change in all_changes: changes_by_path[change.path] = change`. -/
def changes_by_path (all_changes : List FileChange) : List (String × FileChange) :=
  all_changes.foldl (fun m change => dictInsert m change.path change) []

/-- The change list selected by `apply_file_changes`: the aggregated
`all_file_changes`, or the reviewer's own changes when the aggregate is
empty and a reviewer output exists. -/
def select_changes (state : AgentState) : List FileChange :=
  let all_changes := state.all_file_changes
  if all_changes.isEmpty then
    match state.reviewer_output with
    | some output => output.file_changes
    | none => all_changes
  else all_changes

/-- Models `AgentExecutor.apply_file_changes`, after change selection: deduplicate
by path (last writer wins), then apply each surviving change in dict order,
recording its path in `modified_files`. -/
def apply_file_changes (fs : FS) (all_changes : List FileChange) : FS × List String :=
  (changes_by_path all_changes).foldl
    (fun acc e => (apply_single_change acc.1 e.2, acc.2 ++ [e.1]))
    (fs, [])

end AgentExecutor

/-! ## Role appliers, linear mode (`core/roles/*.py`, `core/executor.py`) -/

/-- A file change produced by a linear-mode role: a dict with keys `file`,
`action`, `description` and (optionally, defaulted to `""`) `content`. -/
structure RoleFileChange where
  file : String
  action : String
  description : String
  content : String
  deriving DecidableEq, Repr

/-- Models `RoleProposal`, restricted to the fields `Executor.apply_changes`
reads. -/
structure RoleProposal where
  role : String
  task_id : String
  success : Bool
  file_changes : List RoleFileChange
  deriving DecidableEq, Repr

/-- Models `ImplementerRole.apply_changes`: `create` writes the file (parents as
needed); `modify` of an existing file appends the content after the existing
content, separated by a newline; every other case (including `modify` of an
absent file, `delete` and `prepend`) is skipped and not recorded.
This is the body of the loop, for one change. -/
def implementer_step (acc : FS × List String) (change : RoleFileChange) :
    FS × List String :=
  let action := change.action
  let content := change.content
  if action = "create" then
    (fsWrite acc.1 change.file content, acc.2 ++ [change.file])
  else if action = "modify" && fsExists acc.1 change.file then
    match fsGet acc.1 change.file with
    | some existing =>
        (fsWrite acc.1 change.file (existing ++ "\n" ++ content), acc.2 ++ [change.file])
    | none => acc
  else acc

/-- Models `ImplementerRole.apply_changes`: the loop over all changes. -/
def implementer_apply_changes (fs : FS) (file_changes : List RoleFileChange) :
    FS × List String :=
  file_changes.foldl implementer_step (fs, [])

/-- Models `DocumenterRole.apply_documentation`: `prepend` writes the content
before the existing content (separated by a newline), or creates the file
when absent; `update` of an existing file appends; `create` writes; every
other case is skipped.  This is the body of the loop, for one change. -/
def documenter_step (acc : FS × List String) (change : RoleFileChange) :
    FS × List String :=
  let action := change.action
  let content := change.content
  if action = "prepend" then
    match fsGet acc.1 change.file with
    | some existing =>
        (fsWrite acc.1 change.file (content ++ "\n" ++ existing), acc.2 ++ [change.file])
    | none =>
        (fsWrite acc.1 change.file content, acc.2 ++ [change.file])
  else if action = "update" && fsExists acc.1 change.file then
    match fsGet acc.1 change.file with
    | some existing =>
        (fsWrite acc.1 change.file (existing ++ "\n" ++ content), acc.2 ++ [change.file])
    | none => acc
  else if action = "create" then
    (fsWrite acc.1 change.file content, acc.2 ++ [change.file])
  else acc

/-- Models `DocumenterRole.apply_documentation`: the loop over all changes. -/
def documenter_apply_documentation (fs : FS) (doc_changes : List RoleFileChange) :
    FS × List String :=
  doc_changes.foldl documenter_step (fs, [])

/-- The four role instances registered by `Executor.setup`, as a closed
variant set. -/
inductive RoleKind where
  | architect
  | implementer
  | tester
  | documenter
  deriving DecidableEq, Repr

/-- The `self.roles` dict of `Executor.setup`: role name → role instance. -/
def roles_get (role : String) : Option RoleKind :=
  if role = "architect" then some .architect
  else if role = "implementer" then some .implementer
  else if role = "tester" then some .tester
  else if role = "documenter" then some .documenter
  else none

/-- Models `Executor.apply_changes`: for each proposal in order, skip it when it
failed or proposes no changes; otherwise dispatch on the role instance —
`ImplementerRole` and `DocumenterRole` apply their changes and extend
`modified_files`, any other (or unknown) role does nothing.  This is the
body of the per-proposal loop. -/
def executor_step (acc : FS × List String) (proposal : RoleProposal) :
    FS × List String :=
  if !proposal.success || proposal.file_changes.isEmpty then acc
  else
    match roles_get proposal.role with
    | some .implementer =>
        let applied := implementer_apply_changes acc.1 proposal.file_changes
        (applied.1, acc.2 ++ applied.2)
    | some .documenter =>
        let applied := documenter_apply_documentation acc.1 proposal.file_changes
        (applied.1, acc.2 ++ applied.2)
    | _ => acc

/-- Models `Executor.apply_changes`: the loop over all proposals. -/
def executor_apply_changes (fs : FS) (proposals : List RoleProposal) :
    FS × List String :=
  proposals.foldl executor_step (fs, [])

/-- Whether `Executor.apply_changes` dispatches a proposal to an applier:
the proposal succeeded, proposes at least one change, and its role name
resolves to the Implementer or Documenter instance. -/
def dispatches (p : RoleProposal) : Bool :=
  p.success && !p.file_changes.isEmpty &&
    (match roles_get p.role with
     | some .implementer => true
     | some .documenter => true
     | _ => false)

/-! ## Basic lemmas about the filesystem model -/

theorem fsGet_fsWrite (fs : FS) (path content q : String) :
    fsGet (fsWrite fs path content) q = if path = q then some content else fsGet fs q := by
  induction fs with
  | nil => simp [fsWrite, fsGet]
  | cons e rest ih =>
    obtain ⟨p, c⟩ := e
    by_cases hp : p = path
    · subst hp
      by_cases hq : p = q <;> simp [fsWrite, fsGet, hq]
    · by_cases hq : p = q
      · subst hq
        have : ¬(p = path) := hp
        simp [fsWrite, fsGet, hp, Ne.symm hp]
      · simp [fsWrite, fsGet, hp, hq, ih]

theorem fsGet_fsDelete (fs : FS) (path q : String) :
    fsGet (fsDelete fs path) q = if path = q then none else fsGet fs q := by
  induction fs with
  | nil => simp [fsDelete, fsGet]
  | cons e rest ih =>
    obtain ⟨p, c⟩ := e
    by_cases hp : p = path
    · subst hp
      by_cases hq : p = q
      · subst hq
        simp [fsDelete, fsGet, ih]
      · simp [fsDelete, fsGet, hq, ih]
    · by_cases hq : p = q
      · subst hq
        simp [fsDelete, fsGet, hp, Ne.symm hp]
      · simp [fsDelete, fsGet, hp, hq, ih]

/-! ## C1 — protected-branch safety -/

/-- C1: `commit(message)` raises whenever the current branch is in the
protected set {main, master, develop, production}, for any message (and any
outcome of the underlying subprocess); and `create_branch(name)` raises for
every protected name and for every name that already exists as a branch. -/
theorem C1_protected_branch_safety :
    (∀ (st : GitOps.GitState) (message : String) (allow_empty : Bool) (oc : ProcOutcome),
        GitOps.is_protected_branch st.currentBranch = true →
        ∃ e, GitOps.commit st message allow_empty oc = .error e) ∧
    (∀ (st : GitOps.GitState) (name base : String) (oc1 oc2 oc3 : ProcOutcome),
        GitOps.is_protected_branch name = true ∨ GitOps.branch_exists st name = true →
        ∃ e, GitOps.create_branch st name base oc1 oc2 oc3 = .error e) := by
  constructor
  · intro st message allow_empty oc h
    refine ⟨{ message := "Cannot commit directly to protected branch: " ++ st.currentBranch }, ?_⟩
    simp [GitOps.commit, h]
  · intro st name base oc1 oc2 oc3 h
    by_cases hp : GitOps.is_protected_branch name = true
    · refine ⟨{ message := "Cannot create branch with protected name: " ++ name }, ?_⟩
      simp [GitOps.create_branch, hp]
    · have hp' : GitOps.is_protected_branch name = false := by
        cases hb : GitOps.is_protected_branch name
        · rfl
        · exact absurd hb hp
      have he : GitOps.branch_exists st name = true := h.resolve_left hp
      refine ⟨{ message := "Branch already exists: " ++ name }, ?_⟩
      simp [GitOps.create_branch, hp', he]

/-- Witness for C1: both guards fire at concrete inputs (a repo on `main`,
committing any message; creating a branch named `develop`). -/
theorem C1_witness :
    (∃ e, GitOps.commit ⟨"main", ["main"]⟩ "msg" false (.finished 0 "" "") = .error e) ∧
    (∃ e, GitOps.create_branch ⟨"main", ["main"]⟩ "develop" "main"
        (.finished 0 "" "") (.finished 0 "" "") (.finished 0 "" "") = .error e) :=
  ⟨C1_protected_branch_safety.1 ⟨"main", ["main"]⟩ "msg" false (.finished 0 "" "") (by decide),
   C1_protected_branch_safety.2 ⟨"main", ["main"]⟩ "develop" "main"
     (.finished 0 "" "") (.finished 0 "" "") (.finished 0 "" "") (Or.inl (by decide))⟩

/-! ## C5 — structured results vs. raising -/

/-- C5 counterexample: `get_diff` is an ordinary version-control operation,
its underlying command exits non-zero (an ordinary failure), and the
operation raises `GitError` instead of resolving to a structured result —
because it runs `_run_git` with the default `check=True`, as do most
operations (`get_current_branch`, `stage_files`, `checkout_branch`,
`get_log`, `get_file_list`, `read_file`). -/
theorem C5_counterexample :
    GitOps.get_diff false none (.finished 1 "" "boom")
      = .error { message := "Git command failed: diff\nboom", returncode := 1, stderr := "boom" } := by
  rfl

/-- C5 amended: an ordinary failure (non-zero exit) resolves to a structured
`GitResult` (success flag, stripped output, exit status, exact command)
without raising only when the operation passes `check=False` (as
`validate_repo`, `branch_exists`, the commit command itself and the
best-effort pull do); with the default `check=True` a non-zero exit raises
`GitError`; a zero exit always yields the structured result; a timeout
always raises. -/
theorem C5_amended_structured_results (args : List String) (rc : Int) (out err : String) :
    (GitOps.run_git args false (.finished rc out err) =
      .ok { success := rc == 0, stdout := pyStrip out, stderr := pyStrip err,
            returncode := rc, command := gitExecutable :: args }) ∧
    (rc ≠ 0 → GitOps.run_git args true (.finished rc out err) =
      .error { message := "Git command failed: " ++ " ".intercalate args ++ "\n" ++ pyStrip err,
               returncode := rc, stderr := pyStrip err }) ∧
    (rc = 0 → ∀ check, GitOps.run_git args check (.finished rc out err) =
      .ok { success := true, stdout := pyStrip out, stderr := pyStrip err,
            returncode := rc, command := gitExecutable :: args }) ∧
    (∀ check, GitOps.run_git args check .timedOut =
      .error { message := "Git command timed out: " ++ " ".intercalate args }) := by
  refine ⟨?_, ?_, ?_, ?_⟩
  · simp [GitOps.run_git]
  · intro h
    have hb : (rc == 0) = false := by simpa using h
    simp [GitOps.run_git, hb]
  · intro h check
    subst h
    cases check <;> simp [GitOps.run_git]
  · intro check
    simp [GitOps.run_git]

/-- Witness for C5 amended: at exit code 1, `check=False` yields the
structured failure result and `check=True` raises. -/
theorem C5_witness :
    (GitOps.run_git ["status"] false (.finished 1 "out" " e ") =
      .ok { success := false, stdout := "out", stderr := "e",
            returncode := 1, command := ["git", "status"] }) ∧
    (GitOps.run_git ["status"] true (.finished 1 "out" " e ") =
      .error { message := "Git command failed: status\ne", returncode := 1, stderr := "e" }) := by
  constructor
  · exact (C5_amended_structured_results ["status"] 1 "out" " e ").1
  · exact (C5_amended_structured_results ["status"] 1 "out" " e ").2.1 (by decide)

/-! ## C6 — status transitions -/

/-- C6 counterexample: `set_status` performs no transition validation — on a
run whose status is the terminal `failed`, calling `set_status(pending)`
moves the status back to `pending`, so the status neither only moves forward
nor is `failed` terminal. -/
theorem C6_counterexample :
    (RunContext.set_status ⟨RunStatus.failed, [], []⟩ RunStatus.pending).status
        = RunStatus.pending ∧
    RunStatus.pending ≠ RunStatus.failed := by
  exact ⟨rfl, by decide⟩

/-- C6 amended: `set_status` applies every requested transition
unconditionally — after any non-empty sequence of `set_status` calls the
status is exactly the argument of the last call, whatever the starting
status (including `failed`/`aborted`); forward-only progression is a
discipline of the call sites, not enforced by `RunContext`. -/
theorem C6_amended_last_call_wins (ctx : RunContext) (statuses : List RunStatus)
    (s : RunStatus) (h : statuses.getLast? = some s) :
    (RunContext.set_status_seq ctx statuses).status = s := by
  induction statuses generalizing ctx with
  | nil => simp at h
  | cons s1 rest ih =>
    cases rest with
    | nil =>
      simp only [List.getLast?_singleton, Option.some.injEq] at h
      subst h
      rfl
    | cons s2 rest2 =>
      have h2 : (s2 :: rest2).getLast? = some s := by
        rw [← h]
        exact List.getLast?_cons_cons.symm
      exact ih (RunContext.set_status ctx s1) h2

/-- Witness for C6 amended: a backward sequence `failed` then `pending`
ends with status `pending`. -/
theorem C6_amended_witness :
    (RunContext.set_status_seq ⟨RunStatus.executing, [], []⟩
        [RunStatus.failed, RunStatus.pending]).status = RunStatus.pending :=
  C6_amended_last_call_wins ⟨RunStatus.executing, [], []⟩
    [RunStatus.failed, RunStatus.pending] RunStatus.pending (by decide)

/-! ## C7 — set_status idempotence and logging -/

/-- C7 counterexample: calling `set_status` twice with the same status is
not a no-op for the repeated call — the second call appends a second
"Status changed to executing" log line even though no transition happened
(the run already was `executing`), so a log line is recorded per call, not
per transition. -/
theorem C7_counterexample :
    (RunContext.set_status
        (RunContext.set_status ⟨RunStatus.executing, [], []⟩ RunStatus.executing)
        RunStatus.executing).logs
      = [{ level := "INFO", message := "Status changed to executing" },
         { level := "INFO", message := "Status changed to executing" }] := by
  rfl

/-- C7 amended: `set_status` is not idempotent — every call, including a
repeated call with the current status, appends exactly one
"Status changed to ..." log line: one line per call, not per transition
(and the error list is untouched). -/
theorem C7_amended_one_log_line_per_call (ctx : RunContext) (s : RunStatus) (n : Nat) :
    (RunContext.set_status_seq ctx (List.replicate n s)).logs
      = ctx.logs ++ List.replicate n
          { level := "INFO", message := "Status changed to " ++ s.value } ∧
    (RunContext.set_status_seq ctx (List.replicate n s)).errors = ctx.errors := by
  induction n generalizing ctx with
  | zero => simp [RunContext.set_status_seq]
  | succ k ih =>
    have step : RunContext.set_status_seq ctx (List.replicate (k + 1) s)
        = RunContext.set_status_seq (RunContext.set_status ctx s) (List.replicate k s) := by
      simp [RunContext.set_status_seq, List.replicate_succ]
    rw [step]
    obtain ⟨hl, he⟩ := ih (RunContext.set_status ctx s)
    refine ⟨?_, ?_⟩
    · rw [hl]
      simp [RunContext.set_status, RunContext.log, List.replicate_succ]
    · rw [he]
      rfl

/-! ## C4 — phase-two isolation -/

/-- C4: in phased (1→N→1) mode, when exactly one of the three parallel
workers raises (here each of the three cases in turn), the exception is
converted into that worker's failure output (`success = false`, the
exception recorded as an issue), the other two workers' outputs are passed
through unchanged, all three phase-two slots are filled (exactly three
proposals), and the reviewer phase still executes afterwards (its output is
recorded and the workflow reaches the `complete` phase). -/
theorem C4_phase_two_isolation (goal : String) (architect_out : AgentOutput)
    (e : String) (okA okB : AgentOutput) (reviewer_out : AgentOutput) :
    (let final := run_workflow goal architect_out (.error e) (.ok okA) (.ok okB) reviewer_out
     final.architect_output = some architect_out ∧
     final.implementer_output = some (error_output "implementer" e) ∧
     final.tester_output = some okA ∧
     final.documenter_output = some okB ∧
     final.reviewer_output = some reviewer_out ∧
     final.current_phase = "complete") ∧
    (let final := run_workflow goal architect_out (.ok okA) (.error e) (.ok okB) reviewer_out
     final.implementer_output = some okA ∧
     final.tester_output = some (error_output "tester" e) ∧
     final.documenter_output = some okB ∧
     final.reviewer_output = some reviewer_out ∧
     final.current_phase = "complete") ∧
    (let final := run_workflow goal architect_out (.ok okA) (.ok okB) (.error e) reviewer_out
     final.implementer_output = some okA ∧
     final.tester_output = some okB ∧
     final.documenter_output = some (error_output "documenter" e) ∧
     final.reviewer_output = some reviewer_out ∧
     final.current_phase = "complete") ∧
    (error_output "implementer" e).success = false ∧
    (error_output "implementer" e).issues = [e] := by
  exact ⟨⟨rfl, rfl, rfl, rfl, rfl, rfl⟩, ⟨rfl, rfl, rfl, rfl, rfl⟩,
         ⟨rfl, rfl, rfl, rfl, rfl⟩, rfl, rfl⟩

/-! ## C8, C9 — planner properties -/

theorem foldl_keywords_id (g : String) (ks : List (String × List String))
    (acc : List String) (h : ∀ kv ∈ ks, pyIn kv.1 g = false) :
    ks.foldl
      (fun acc kv => if pyIn kv.1 g then acc ++ kv.2.filter (fun t => !acc.contains t) else acc)
      acc = acc := by
  induction ks generalizing acc with
  | nil => rfl
  | cons kv rest ih =>
    have hkv : pyIn kv.1 g = false := h kv (List.mem_cons_self kv rest)
    have hrest : ∀ kv2 ∈ rest, pyIn kv2.1 g = false :=
      fun kv2 hm => h kv2 (List.mem_cons_of_mem kv hm)
    simp only [List.foldl_cons, hkv, Bool.false_eq_true, if_false]
    exact ih acc hrest

theorem detected_types_eq_nil (goal : String)
    (h : ∀ kv ∈ Planner.KEYWORDS, pyIn kv.1 (pyLower goal) = false) :
    Planner.detected_types goal = [] := by
  unfold Planner.detected_types
  exact foldl_keywords_id (pyLower goal) Planner.KEYWORDS [] h

theorem detect_task_types_default (goal : String)
    (h : ∀ kv ∈ Planner.KEYWORDS, pyIn kv.1 (pyLower goal) = false) :
    Planner.detect_task_types goal = ["analyze", "design", "implement", "test", "validate"] := by
  unfold Planner.detect_task_types
  rw [detected_types_eq_nil goal h]
  rfl

theorem mkTasks_map_type (g gs : String) :
    ∀ (types : List String) (i : Nat) (prev : Option String),
      (Planner.mkTasks g gs types i prev).map (fun t => t.type) = types := by
  intro types
  induction types with
  | nil => intro i prev; rfl
  | cons t rest ih =>
    intro i prev
    simp only [Planner.mkTasks, List.map_cons, List.cons.injEq]
    exact ⟨trivial, ih (i + 1) _⟩

/-- C8: for every goal in which no keyword of the planner's keyword table
occurs, `create_plan(goal)` yields exactly the default workflow of task
types analyze, design, implement, test, validate, in that fixed order. -/
theorem C8_default_workflow (goal : String)
    (h : ∀ kv ∈ Planner.KEYWORDS, pyIn kv.1 (pyLower goal) = false) :
    (Planner.create_plan goal).tasks.map (fun t => t.type)
      = ["analyze", "design", "implement", "test", "validate"] := by
  show (Planner.mkTasks goal (Planner.extract_goal_summary goal)
      (Planner.detect_task_types goal) 0 none).map (fun t => t.type) = _
  rw [mkTasks_map_type]
  exact detect_task_types_default goal h

/-- Witness for C8: the goal "zzz" contains no keyword and yields the
default workflow. -/
theorem C8_witness :
    (Planner.create_plan "zzz").tasks.map (fun t => t.type)
      = ["analyze", "design", "implement", "test", "validate"] :=
  C8_default_workflow "zzz" (by decide)

theorem mkTasks_chain (g gs : String) :
    ∀ (types : List String) (i : Nat) (prev : Option String),
      (∀ h0 : 0 < (Planner.mkTasks g gs types i prev).length,
        ((Planner.mkTasks g gs types i prev).get ⟨0, h0⟩).dependencies
          = prev.elim [] (fun p => [p])) ∧
      (∀ j (hj : j + 1 < (Planner.mkTasks g gs types i prev).length),
        ((Planner.mkTasks g gs types i prev).get ⟨j + 1, hj⟩).dependencies
          = [((Planner.mkTasks g gs types i prev).get ⟨j, Nat.lt_of_succ_lt hj⟩).id]) := by
  intro types
  induction types with
  | nil =>
    intro i prev
    constructor
    · intro h0
      simp [Planner.mkTasks] at h0
    · intro j hj
      simp [Planner.mkTasks] at hj
  | cons t rest ih =>
    intro i prev
    constructor
    · intro h0
      cases prev <;> rfl
    · intro j hj
      cases j with
      | zero =>
        have hlen : 0 < (Planner.mkTasks g gs rest (i + 1)
            (some ("task_" ++ Planner.pad2 (i + 1) ++ "_" ++ t))).length := by
          have := hj
          simp only [Planner.mkTasks, List.length_cons] at this
          omega
        have h1 := (ih (i + 1) (some ("task_" ++ Planner.pad2 (i + 1) ++ "_" ++ t))).1 hlen
        simpa [Planner.mkTasks] using h1
      | succ k =>
        have hlen : k + 1 < (Planner.mkTasks g gs rest (i + 1)
            (some ("task_" ++ Planner.pad2 (i + 1) ++ "_" ++ t))).length := by
          have := hj
          simp only [Planner.mkTasks, List.length_cons] at this
          omega
        have h2 := (ih (i + 1) (some ("task_" ++ Planner.pad2 (i + 1) ++ "_" ++ t))).2 k hlen
        simpa [Planner.mkTasks] using h2

/-- C9: for every goal, the plan is a linear dependency chain — the first
task has no dependencies, and every later task depends exactly on the
singleton containing its immediate predecessor's id. -/
theorem C9_linear_dependency_chain (goal : String) :
    (∀ h0 : 0 < (Planner.create_plan goal).tasks.length,
      ((Planner.create_plan goal).tasks.get ⟨0, h0⟩).dependencies = []) ∧
    (∀ i (h : i + 1 < (Planner.create_plan goal).tasks.length),
      ((Planner.create_plan goal).tasks.get ⟨i + 1, h⟩).dependencies
        = [((Planner.create_plan goal).tasks.get ⟨i, Nat.lt_of_succ_lt h⟩).id]) := by
  have h := mkTasks_chain goal (Planner.extract_goal_summary goal)
    (Planner.detect_task_types goal) 0 none
  exact ⟨h.1, h.2⟩

/-- Witness for C9: in the plan for "zzz", the first task has no
dependencies and the second depends exactly on the first task's id. -/
theorem C9_witness :
    ((Planner.create_plan "zzz").tasks.get ⟨0, by decide⟩).dependencies = [] ∧
    ((Planner.create_plan "zzz").tasks.get ⟨1, by decide⟩).dependencies
      = [((Planner.create_plan "zzz").tasks.get ⟨0, by decide⟩).id] :=
  ⟨(C9_linear_dependency_chain "zzz").1 (by decide),
   (C9_linear_dependency_chain "zzz").2 0 (by decide)⟩

/-! ## C2 — file-change action semantics -/

/-- C2 counterexample: the multi-agent applier handles no `prepend` action —
applying a `prepend` change to an existing `CHANGELOG.md` leaves the
filesystem unchanged ("new" is not inserted before "old"); and the linear
implementer applier does not overwrite on `modify` — it appends the new
content after the existing content. -/
theorem C2_counterexample :
    (AgentExecutor.apply_single_change [("CHANGELOG.md", "old")]
        { path := "CHANGELOG.md", action := "prepend", content := "new", description := "" }
      = [("CHANGELOG.md", "old")]) ∧
    (implementer_apply_changes [("a.py", "old")]
        [{ file := "a.py", action := "modify", description := "", content := "new" }]
      = ([("a.py", "old\nnew")], ["a.py"])) ∧
    ("old" : String) ≠ "new" ++ "\n" ++ "old" ∧
    ("old\nnew" : String) ≠ "new" := by
  refine ⟨rfl, rfl, by decide, by decide⟩

/-- C2 amended: in the multi-agent applier (`_apply_single_change`),
`create` writes the file, `modify` overwrites it if present and creates it
otherwise, `delete` removes it if present and is a no-op otherwise, and any
other action — in particular `prepend` — performs no file operation at all.
The claimed `prepend` semantics (insert the content before the existing
content, separated by a newline, or create the file if absent) are
implemented only by the linear documenter applier; the linear implementer
applier implements `modify` of an existing file as append-after-existing
and skips every other non-`create` case. -/
theorem C2_amended_action_semantics (fs : FS) (c : FileChange) (rc : RoleFileChange) :
    (c.action = "create" →
      AgentExecutor.apply_single_change fs c = fsWrite fs c.path c.content) ∧
    (c.action = "modify" →
      AgentExecutor.apply_single_change fs c = fsWrite fs c.path c.content) ∧
    (c.action = "delete" →
      AgentExecutor.apply_single_change fs c
        = if fsExists fs c.path then fsDelete fs c.path else fs) ∧
    (c.action ≠ "create" → c.action ≠ "modify" → c.action ≠ "delete" →
      AgentExecutor.apply_single_change fs c = fs) ∧
    (rc.action = "prepend" → fsGet fs rc.file = none →
      documenter_apply_documentation fs [rc]
        = (fsWrite fs rc.file rc.content, [rc.file])) ∧
    (∀ existing, rc.action = "prepend" → fsGet fs rc.file = some existing →
      documenter_apply_documentation fs [rc]
        = (fsWrite fs rc.file (rc.content ++ "\n" ++ existing), [rc.file])) ∧
    (∀ existing, rc.action = "modify" → fsGet fs rc.file = some existing →
      implementer_apply_changes fs [rc]
        = (fsWrite fs rc.file (existing ++ "\n" ++ rc.content), [rc.file])) ∧
    (rc.action = "modify" → fsGet fs rc.file = none →
      implementer_apply_changes fs [rc] = (fs, [])) := by
  refine ⟨?_, ?_, ?_, ?_, ?_, ?_, ?_, ?_⟩
  · intro h
    simp [AgentExecutor.apply_single_change, h]
  · intro h
    by_cases he : fsExists fs c.path <;>
      simp [AgentExecutor.apply_single_change, h, he]
  · intro h
    simp [AgentExecutor.apply_single_change, h]
  · intro h1 h2 h3
    simp [AgentExecutor.apply_single_change, h1, h2, h3]
  · intro h hn
    simp [documenter_apply_documentation, documenter_step, h, hn]
  · intro existing h hs
    simp [documenter_apply_documentation, documenter_step, h, hs]
  · intro existing h hs
    have he : fsExists fs rc.file = true := by
      simp [fsExists, hs]
    simp [implementer_apply_changes, implementer_step, h, he, hs]
  · intro h hn
    have he : fsExists fs rc.file = false := by
      simp [fsExists, hn]
    simp [implementer_apply_changes, implementer_step, h, he]

/-- Witness for C2 amended: each branch of the amended semantics at a
concrete input. -/
theorem C2_amended_witness :
    (AgentExecutor.apply_single_change []
        { path := "a", action := "create", content := "x", description := "" }
      = [("a", "x")]) ∧
    (AgentExecutor.apply_single_change [("a", "0")]
        { path := "a", action := "modify", content := "x", description := "" }
      = [("a", "x")]) ∧
    (AgentExecutor.apply_single_change [("a", "0")]
        { path := "a", action := "delete", content := "", description := "" }
      = []) ∧
    (AgentExecutor.apply_single_change [("a", "0")]
        { path := "a", action := "prepend", content := "x", description := "" }
      = [("a", "0")]) ∧
    (documenter_apply_documentation []
        [{ file := "d", action := "prepend", description := "", content := "x" }]
      = ([("d", "x")], ["d"])) ∧
    (documenter_apply_documentation [("d", "0")]
        [{ file := "d", action := "prepend", description := "", content := "x" }]
      = ([("d", "x\n0")], ["d"])) ∧
    (implementer_apply_changes [("i", "0")]
        [{ file := "i", action := "modify", description := "", content := "x" }]
      = ([("i", "0\nx")], ["i"])) ∧
    (implementer_apply_changes []
        [{ file := "i", action := "modify", description := "", content := "x" }]
      = ([], [])) := by
  refine ⟨?_, ?_, ?_, ?_, ?_, ?_, ?_, ?_⟩
  · exact (C2_amended_action_semantics []
      { path := "a", action := "create", content := "x", description := "" }
      { file := "", action := "", description := "", content := "" }).1 rfl
  · exact (C2_amended_action_semantics [("a", "0")]
      { path := "a", action := "modify", content := "x", description := "" }
      { file := "", action := "", description := "", content := "" }).2.1 rfl
  · exact (C2_amended_action_semantics [("a", "0")]
      { path := "a", action := "delete", content := "", description := "" }
      { file := "", action := "", description := "", content := "" }).2.2.1 rfl
  · exact (C2_amended_action_semantics [("a", "0")]
      { path := "a", action := "prepend", content := "x", description := "" }
      { file := "", action := "", description := "", content := "" }).2.2.2.1
      (by decide) (by decide) (by decide)
  · exact (C2_amended_action_semantics []
      { path := "", action := "", content := "", description := "" }
      { file := "d", action := "prepend", description := "", content := "x" }).2.2.2.2.1
      rfl rfl
  · exact (C2_amended_action_semantics [("d", "0")]
      { path := "", action := "", content := "", description := "" }
      { file := "d", action := "prepend", description := "", content := "x" }).2.2.2.2.2.1
      "0" rfl rfl
  · exact (C2_amended_action_semantics [("i", "0")]
      { path := "", action := "", content := "", description := "" }
      { file := "i", action := "modify", description := "", content := "x" }).2.2.2.2.2.2.1
      "0" rfl rfl
  · exact (C2_amended_action_semantics []
      { path := "", action := "", content := "", description := "" }
      { file := "i", action := "modify", description := "", content := "x" }).2.2.2.2.2.2.2
      rfl rfl

/-! ## C3 — last-writer-wins deduplication -/

theorem dictGet_map_subst_ne (m : List (String × FileChange)) (k q : String)
    (v : FileChange) (hq : q ≠ k) :
    AgentExecutor.dictGet (m.map (fun e => if e.1 = k then (k, v) else e)) q
      = AgentExecutor.dictGet m q := by
  induction m with
  | nil => rfl
  | cons e rest ih =>
    obtain ⟨p, c⟩ := e
    simp only [List.map_cons]
    by_cases hp : p = k
    · rw [if_pos hp]
      show AgentExecutor.dictGet ((k, v) :: _) q = _
      unfold AgentExecutor.dictGet
      rw [if_neg (Ne.symm hq), if_neg (fun h : p = q => hq (h ▸ hp ▸ rfl))]
      exact ih
    · rw [if_neg hp]
      unfold AgentExecutor.dictGet
      by_cases hpq : p = q
      · rw [if_pos hpq, if_pos hpq]
      · rw [if_neg hpq, if_neg hpq]
        exact ih

theorem dictGet_map_subst_eq (m : List (String × FileChange)) (k : String)
    (v : FileChange) (hany : m.any (fun e => e.1 = k) = true) :
    AgentExecutor.dictGet (m.map (fun e => if e.1 = k then (k, v) else e)) k
      = some v := by
  induction m with
  | nil => simp at hany
  | cons e rest ih =>
    obtain ⟨p, c⟩ := e
    simp only [List.map_cons]
    by_cases hp : p = k
    · rw [if_pos hp]
      show AgentExecutor.dictGet ((k, v) :: _) k = _
      unfold AgentExecutor.dictGet
      rw [if_pos rfl]
    · rw [if_neg hp]
      have hrest : rest.any (fun e => e.1 = k) = true := by
        simp only [List.any_cons, Bool.or_eq_true] at hany
        rcases hany with h1 | h2
        · exact absurd (by simpa using h1) hp
        · exact h2
      unfold AgentExecutor.dictGet
      rw [if_neg hp]
      exact ih hrest

theorem dictGet_append_single (m : List (String × FileChange)) (k q : String)
    (v : FileChange) :
    AgentExecutor.dictGet (m ++ [(k, v)]) q
      = match AgentExecutor.dictGet m q with
        | some x => some x
        | none => if k = q then some v else none := by
  induction m with
  | nil => rfl
  | cons e rest ih =>
    obtain ⟨p, c⟩ := e
    simp only [List.cons_append]
    unfold AgentExecutor.dictGet
    by_cases hp : p = q
    · rw [if_pos hp, if_pos hp]
    · rw [if_neg hp, if_neg hp]
      exact ih

theorem dictGet_none_of_not_any (m : List (String × FileChange)) (k : String)
    (hany : m.any (fun e => e.1 = k) = false) :
    AgentExecutor.dictGet m k = none := by
  induction m with
  | nil => rfl
  | cons e rest ih =>
    obtain ⟨p, c⟩ := e
    simp only [List.any_cons, Bool.or_eq_false_iff] at hany
    have hp : ¬(p = k) := by simpa using hany.1
    unfold AgentExecutor.dictGet
    rw [if_neg hp]
    exact ih hany.2

theorem dictGet_dictInsert (m : List (String × FileChange)) (k q : String)
    (v : FileChange) :
    AgentExecutor.dictGet (AgentExecutor.dictInsert m k v) q
      = if q = k then some v else AgentExecutor.dictGet m q := by
  unfold AgentExecutor.dictInsert
  by_cases hany : m.any (fun e => e.1 = k) = true
  · rw [if_pos hany]
    by_cases hq : q = k
    · subst hq
      rw [if_pos rfl]
      exact dictGet_map_subst_eq m q v hany
    · rw [if_neg hq]
      exact dictGet_map_subst_ne m k q v hq
  · have hany' : m.any (fun e => e.1 = k) = false := by
      cases h : m.any (fun e => e.1 = k)
      · rfl
      · exact absurd h hany
    rw [if_neg hany]
    rw [dictGet_append_single]
    by_cases hq : q = k
    · subst hq
      rw [dictGet_none_of_not_any m q hany']
    · rw [if_neg hq]
      cases hg : AgentExecutor.dictGet m q
      · simp [Ne.symm hq]
      · simp

theorem any_key_iff_mem (m : List (String × FileChange)) (k : String) :
    m.any (fun e => e.1 = k) = true ↔ k ∈ m.map (fun e => e.1) := by
  constructor
  · intro h
    rw [List.any_eq_true] at h
    obtain ⟨e, he, hek⟩ := h
    have hk : e.1 = k := by simpa using hek
    exact hk ▸ List.mem_map_of_mem (fun e => e.1) he
  · intro h
    obtain ⟨e, he, hek⟩ := List.mem_map.1 h
    rw [List.any_eq_true]
    exact ⟨e, he, by simpa using hek⟩

theorem keys_map_subst (m : List (String × FileChange)) (k : String) (v : FileChange) :
    (m.map (fun e => if e.1 = k then (k, v) else e)).map (fun e => e.1)
      = m.map (fun e => e.1) := by
  induction m with
  | nil => rfl
  | cons e rest ih =>
    obtain ⟨p, c⟩ := e
    simp only [List.map_cons]
    by_cases hp : p = k
    · rw [if_pos hp, List.cons.injEq]
      exact ⟨hp.symm, ih⟩
    · rw [if_neg hp, List.cons.injEq]
      exact ⟨rfl, ih⟩

theorem keys_dictInsert (m : List (String × FileChange)) (k : String) (v : FileChange) :
    (AgentExecutor.dictInsert m k v).map (fun e => e.1)
      = if m.any (fun e => e.1 = k) = true then m.map (fun e => e.1)
        else m.map (fun e => e.1) ++ [k] := by
  unfold AgentExecutor.dictInsert
  by_cases hany : m.any (fun e => e.1 = k) = true
  · rw [if_pos hany, if_pos hany]
    exact keys_map_subst m k v
  · rw [if_neg hany, if_neg hany]
    simp

theorem nodup_keys_dictInsert (m : List (String × FileChange)) (k : String)
    (v : FileChange) (h : (m.map (fun e => e.1)).Nodup) :
    ((AgentExecutor.dictInsert m k v).map (fun e => e.1)).Nodup := by
  rw [keys_dictInsert]
  by_cases hany : m.any (fun e => e.1 = k) = true
  · rw [if_pos hany]
    exact h
  · rw [if_neg hany]
    have hk : k ∉ m.map (fun e => e.1) := fun hm =>
      hany ((any_key_iff_mem m k).2 hm)
    exact List.Nodup.append h (List.nodup_singleton k)
      (by simpa [List.disjoint_singleton] using hk)

theorem mem_keys_dictInsert (m : List (String × FileChange)) (k p : String)
    (v : FileChange) :
    p ∈ (AgentExecutor.dictInsert m k v).map (fun e => e.1)
      ↔ p ∈ m.map (fun e => e.1) ∨ p = k := by
  rw [keys_dictInsert]
  by_cases hany : m.any (fun e => e.1 = k) = true
  · rw [if_pos hany]
    constructor
    · exact Or.inl
    · intro h
      rcases h with h | h
      · exact h
      · exact h ▸ (any_key_iff_mem m k).1 hany
  · rw [if_neg hany]
    simp

theorem nodup_keys_changes_fold (cs : List FileChange) :
    ∀ (m : List (String × FileChange)), (m.map (fun e => e.1)).Nodup →
      ((cs.foldl (fun m change => AgentExecutor.dictInsert m change.path change) m).map
        (fun e => e.1)).Nodup := by
  induction cs with
  | nil => intro m h; exact h
  | cons c rest ih =>
    intro m h
    exact ih (AgentExecutor.dictInsert m c.path c) (nodup_keys_dictInsert m c.path c h)

theorem mem_keys_changes_fold (cs : List FileChange) (p : String) :
    ∀ (m : List (String × FileChange)),
      p ∈ ((cs.foldl (fun m change => AgentExecutor.dictInsert m change.path change) m).map
            (fun e => e.1))
        ↔ p ∈ m.map (fun e => e.1) ∨ ∃ c ∈ cs, c.path = p := by
  induction cs with
  | nil => intro m; simp
  | cons c rest ih =>
    intro m
    rw [List.foldl_cons, ih (AgentExecutor.dictInsert m c.path c)]
    rw [mem_keys_dictInsert m c.path p c]
    constructor
    · rintro ((hm | hp) | ⟨c2, hc2, hp2⟩)
      · exact Or.inl hm
      · exact Or.inr ⟨c, List.mem_cons_self c rest, hp.symm⟩
      · exact Or.inr ⟨c2, List.mem_cons_of_mem c hc2, hp2⟩
    · rintro (hm | ⟨c2, hc2, hp2⟩)
      · exact Or.inl (Or.inl hm)
      · rcases List.mem_cons.1 hc2 with h | h
        · exact Or.inl (Or.inr (h ▸ hp2.symm))
        · exact Or.inr ⟨c2, h, hp2⟩

theorem getLast?_cons_eq (c : FileChange) (l : List FileChange) :
    (c :: l).getLast? = match l.getLast? with
      | some x => some x
      | none => some c := by
  cases l with
  | nil => rfl
  | cons a l2 =>
    rw [List.getLast?_cons_cons]
    cases h : (a :: l2).getLast? with
    | some x => rfl
    | none => exact absurd (List.getLast?_eq_none_iff.1 h) (by simp)

theorem dictGet_changes_fold (cs : List FileChange) (q : String) :
    ∀ (m : List (String × FileChange)),
      AgentExecutor.dictGet
          (cs.foldl (fun m change => AgentExecutor.dictInsert m change.path change) m) q
        = match (cs.filter (fun c => c.path = q)).getLast? with
          | some c => some c
          | none => AgentExecutor.dictGet m q := by
  induction cs with
  | nil => intro m; rfl
  | cons c rest ih =>
    intro m
    rw [List.foldl_cons, ih (AgentExecutor.dictInsert m c.path c), dictGet_dictInsert]
    by_cases hc : c.path = q
    · rw [List.filter_cons_of_pos (by simpa using hc), getLast?_cons_eq]
      cases hrest : (rest.filter (fun c => c.path = q)).getLast? with
      | some c2 => rfl
      | none => rw [if_pos hc.symm]
    · rw [List.filter_cons_of_neg (by simpa using hc)]
      cases hrest : (rest.filter (fun c => c.path = q)).getLast? with
      | some c2 => rfl
      | none => rw [if_neg (fun h : q = c.path => hc h.symm)]

theorem apply_single_change_frame (fs : FS) (c : FileChange) (q : String)
    (h : c.path ≠ q) :
    fsGet (AgentExecutor.apply_single_change fs c) q = fsGet fs q := by
  unfold AgentExecutor.apply_single_change
  by_cases h1 : c.action = "create"
  · rw [if_pos h1, fsGet_fsWrite, if_neg h]
  · rw [if_neg h1]
    by_cases h2 : c.action = "modify"
    · rw [if_pos h2]
      by_cases he : fsExists fs c.path
      · rw [if_pos he, fsGet_fsWrite, if_neg h]
      · rw [if_neg he, fsGet_fsWrite, if_neg h]
    · rw [if_neg h2]
      by_cases h3 : c.action = "delete"
      · rw [if_pos h3]
        by_cases he : fsExists fs c.path
        · rw [if_pos he, fsGet_fsDelete, if_neg h]
        · rw [if_neg he]
      · rw [if_neg h3]

theorem apply_single_change_get_self (fs fs' : FS) (c : FileChange)
    (h : fsGet fs c.path = fsGet fs' c.path) :
    fsGet (AgentExecutor.apply_single_change fs c) c.path
      = fsGet (AgentExecutor.apply_single_change fs' c) c.path := by
  have hee : fsExists fs c.path = fsExists fs' c.path := by
    unfold fsExists
    rw [h]
  unfold AgentExecutor.apply_single_change
  by_cases h1 : c.action = "create"
  · simp [h1, fsGet_fsWrite]
  · by_cases h2 : c.action = "modify"
    · simp [h1, h2, fsGet_fsWrite]
    · by_cases h3 : c.action = "delete"
      · by_cases he : fsExists fs c.path
        · have he' : fsExists fs' c.path := hee ▸ he
          simp [h1, h2, h3, he, he', fsGet_fsDelete]
        · have he' : ¬(fsExists fs' c.path = true) := fun hh => he (hee ▸ hh)
          simpa [h1, h2, h3, he, he'] using h
      · simpa [h1, h2, h3] using h

theorem fold_apply_frame (m : List (String × FileChange)) (q : String) :
    ∀ (fs : FS) (l : List String), (∀ e ∈ m, e.2.path ≠ q) →
      fsGet ((m.foldl
          (fun acc e => (AgentExecutor.apply_single_change acc.1 e.2, acc.2 ++ [e.1]))
          (fs, l)).1) q
        = fsGet fs q := by
  induction m with
  | nil => intro fs l _; rfl
  | cons e rest ih =>
    intro fs l h
    rw [List.foldl_cons]
    rw [ih (AgentExecutor.apply_single_change fs e.2) (l ++ [e.1])
        (fun e2 he2 => h e2 (List.mem_cons_of_mem e he2))]
    exact apply_single_change_frame fs e.2 q (h e (List.mem_cons_self e rest))

theorem dictGet_path_eq (m : List (String × FileChange)) (q : String) (c : FileChange)
    (hwf : ∀ e ∈ m, e.1 = e.2.path) (h : AgentExecutor.dictGet m q = some c) :
    c.path = q := by
  induction m with
  | nil => simp [AgentExecutor.dictGet] at h
  | cons e rest ih =>
    obtain ⟨p, v⟩ := e
    unfold AgentExecutor.dictGet at h
    by_cases hp : p = q
    · rw [if_pos hp] at h
      have hv : v = c := by simpa using h
      have := hwf (p, v) (List.mem_cons_self (p, v) rest)
      simp only at this
      rw [hv] at this
      rw [← this, hp]
    · rw [if_neg hp] at h
      exact ih (fun e2 he2 => hwf e2 (List.mem_cons_of_mem (p, v) he2)) h

theorem fold_apply_get (m : List (String × FileChange)) (q : String) :
    ∀ (fs : FS) (l : List String) (c : FileChange),
      (∀ e ∈ m, e.1 = e.2.path) → ((m.map (fun e => e.1)).Nodup) →
      AgentExecutor.dictGet m q = some c →
      fsGet ((m.foldl
          (fun acc e => (AgentExecutor.apply_single_change acc.1 e.2, acc.2 ++ [e.1]))
          (fs, l)).1) q
        = fsGet (AgentExecutor.apply_single_change fs c) q := by
  induction m with
  | nil => intro fs l c _ _ h; simp [AgentExecutor.dictGet] at h
  | cons e rest ih =>
    intro fs l c hwf hnd h
    have hwfe : e.1 = e.2.path := hwf e (List.mem_cons_self e rest)
    have hwfr : ∀ e2 ∈ rest, e2.1 = e2.2.path :=
      fun e2 he2 => hwf e2 (List.mem_cons_of_mem e he2)
    rw [List.foldl_cons]
    unfold AgentExecutor.dictGet at h
    by_cases hp : e.1 = q
    · rw [if_pos hp] at h
      have hc : e.2 = c := by simpa using h
      have hnotin : e.1 ∉ rest.map (fun e2 => e2.1) := by
        simp only [List.map_cons, List.nodup_cons] at hnd
        exact hnd.1
      have hframe : ∀ e2 ∈ rest, e2.2.path ≠ q := by
        intro e2 he2 heq
        exact hnotin (hp ▸ heq ▸ (hwfr e2 he2) ▸ List.mem_map_of_mem (fun e2 => e2.1) he2)
      rw [fold_apply_frame rest q (AgentExecutor.apply_single_change fs e.2) (l ++ [e.1])
          hframe]
      rw [hc]
    · rw [if_neg hp] at h
      have hnd' : (rest.map (fun e2 => e2.1)).Nodup := by
        simp only [List.map_cons, List.nodup_cons] at hnd
        exact hnd.2
      rw [ih (AgentExecutor.apply_single_change fs e.2) (l ++ [e.1]) c hwfr hnd' h]
      have hcq : c.path = q := dictGet_path_eq rest q c hwfr h
      have hstep : fsGet (AgentExecutor.apply_single_change fs e.2) c.path = fsGet fs c.path := by
        rw [hcq]
        exact apply_single_change_frame fs e.2 q (fun hh => hp (hwfe.symm ▸ hh))
      rw [hcq] at hstep
      conv_lhs => rw [← hcq]
      conv_rhs => rw [← hcq]
      exact apply_single_change_get_self (AgentExecutor.apply_single_change fs e.2) fs c
        (hcq ▸ hstep)

theorem fold_apply_mods (m : List (String × FileChange)) :
    ∀ (fs : FS) (l : List String),
      ((m.foldl
          (fun acc e => (AgentExecutor.apply_single_change acc.1 e.2, acc.2 ++ [e.1]))
          (fs, l)).2)
        = l ++ m.map (fun e => e.1) := by
  induction m with
  | nil => intro fs l; simp
  | cons e rest ih =>
    intro fs l
    rw [List.foldl_cons, ih (AgentExecutor.apply_single_change fs e.2) (l ++ [e.1])]
    simp

theorem wf_dictInsert (m : List (String × FileChange)) (k : String) (v : FileChange)
    (hkv : k = v.path) (hwf : ∀ e ∈ m, e.1 = e.2.path) :
    ∀ e ∈ AgentExecutor.dictInsert m k v, e.1 = e.2.path := by
  unfold AgentExecutor.dictInsert
  by_cases hany : m.any (fun e => e.1 = k) = true
  · rw [if_pos hany]
    intro e he
    obtain ⟨e0, he0, heq⟩ := List.mem_map.1 he
    by_cases h0 : e0.1 = k
    · rw [if_pos h0] at heq
      rw [← heq]
      exact hkv
    · rw [if_neg h0] at heq
      exact heq ▸ hwf e0 he0
  · rw [if_neg hany]
    intro e he
    rcases List.mem_append.1 he with h | h
    · exact hwf e h
    · have : e = (k, v) := by simpa using h
      rw [this]
      exact hkv

theorem wf_changes_fold (cs : List FileChange) :
    ∀ (m : List (String × FileChange)), (∀ e ∈ m, e.1 = e.2.path) →
      ∀ e ∈ cs.foldl (fun m change => AgentExecutor.dictInsert m change.path change) m,
        e.1 = e.2.path := by
  induction cs with
  | nil => intro m h; exact h
  | cons c rest ih =>
    intro m h
    exact ih (AgentExecutor.dictInsert m c.path c)
      (wf_dictInsert m c.path c rfl h)

/-- C3: for every sequence of proposed FileChanges containing two or more
changes with the same path `p`, at most one change per path survives
deduplication — exactly one surviving dict entry and exactly one recorded
application for `p`, the surviving change is the last-occurring one, and the
final state of `p` is exactly that of applying the last change alone. -/
theorem C3_last_writer_wins (fs : FS) (changes : List FileChange) (p : String)
    (h : 2 ≤ (changes.filter (fun c => c.path = p)).length) :
    ((AgentExecutor.changes_by_path changes).map (fun e => e.1)).count p = 1 ∧
    AgentExecutor.dictGet (AgentExecutor.changes_by_path changes) p
      = (changes.filter (fun c => c.path = p)).getLast? ∧
    ((AgentExecutor.apply_file_changes fs changes).2).count p = 1 ∧
    (∀ c, (changes.filter (fun c => c.path = p)).getLast? = some c →
      fsGet (AgentExecutor.apply_file_changes fs changes).1 p
        = fsGet (AgentExecutor.apply_single_change fs c) p) := by
  have hne : changes.filter (fun c => c.path = p) ≠ [] := by
    intro hnil
    rw [hnil] at h
    simp at h
  obtain ⟨c0, hc0⟩ := List.exists_mem_of_ne_nil _ hne
  have hc0m := List.mem_filter.1 hc0
  have hex : ∃ c ∈ changes, c.path = p := ⟨c0, hc0m.1, by simpa using hc0m.2⟩
  have hnodup : ((AgentExecutor.changes_by_path changes).map (fun e => e.1)).Nodup :=
    nodup_keys_changes_fold changes [] (by simp)
  have hmem : p ∈ (AgentExecutor.changes_by_path changes).map (fun e => e.1) :=
    (mem_keys_changes_fold changes p []).2 (Or.inr hex)
  have hcount : ((AgentExecutor.changes_by_path changes).map (fun e => e.1)).count p = 1 :=
    List.count_eq_one_of_mem hnodup hmem
  have hget : AgentExecutor.dictGet (AgentExecutor.changes_by_path changes) p
      = (changes.filter (fun c => c.path = p)).getLast? := by
    rw [show AgentExecutor.changes_by_path changes
        = changes.foldl (fun m change => AgentExecutor.dictInsert m change.path change) []
      from rfl]
    rw [dictGet_changes_fold changes p []]
    cases hlast : (changes.filter (fun c => c.path = p)).getLast? with
    | some c1 => rfl
    | none => exact absurd (List.getLast?_eq_none_iff.1 hlast) hne
  have hmods : (AgentExecutor.apply_file_changes fs changes).2
      = (AgentExecutor.changes_by_path changes).map (fun e => e.1) := by
    rw [show (AgentExecutor.apply_file_changes fs changes).2
        = ((AgentExecutor.changes_by_path changes).foldl
            (fun acc e => (AgentExecutor.apply_single_change acc.1 e.2, acc.2 ++ [e.1]))
            (fs, [])).2
      from rfl]
    rw [fold_apply_mods (AgentExecutor.changes_by_path changes) fs []]
    rfl
  refine ⟨hcount, hget, ?_, ?_⟩
  · rw [hmods]
    exact hcount
  · intro c hc
    have hgets : AgentExecutor.dictGet (AgentExecutor.changes_by_path changes) p = some c := by
      rw [hget, hc]
    exact fold_apply_get (AgentExecutor.changes_by_path changes) p fs [] c
      (wf_changes_fold changes [] (by simp)) hnodup hgets

/-- Witness for C3: two `create` changes for the same path "f" — the final
content of "f" is that of the second (later) change alone. -/
theorem C3_witness :
    fsGet (AgentExecutor.apply_file_changes []
        [{ path := "f", action := "create", content := "A", description := "" },
         { path := "f", action := "create", content := "B", description := "" }]).1 "f"
      = fsGet (AgentExecutor.apply_single_change []
          { path := "f", action := "create", content := "B", description := "" }) "f" :=
  (C3_last_writer_wins []
      [{ path := "f", action := "create", content := "A", description := "" },
       { path := "f", action := "create", content := "B", description := "" }]
      "f" (by decide)).2.2.2
    { path := "f", action := "create", content := "B", description := "" } (by decide)

/-! ## C10 — only successful implementer/documenter proposals are applied -/

theorem executor_step_skip (acc : FS × List String) (p : RoleProposal)
    (h : dispatches p = false) :
    executor_step acc p = acc := by
  unfold executor_step
  by_cases hs : p.success
  · by_cases hie : p.file_changes.isEmpty
    · simp [hs, hie]
    · have hie' : p.file_changes.isEmpty = false := by
        cases hb : p.file_changes.isEmpty
        · rfl
        · exact absurd hb hie
      simp only [hs, hie', Bool.not_true, Bool.false_or, if_false, Bool.false_eq_true]
      unfold dispatches at h
      rw [hs, hie'] at h
      simp only [Bool.not_false, Bool.true_and, Bool.and_true] at h
      cases hr : roles_get p.role with
      | none => rfl
      | some k =>
        cases k with
        | architect => rfl
        | implementer => rw [hr] at h; simp at h
        | tester => rfl
        | documenter => rw [hr] at h; simp at h
  · have hs' : p.success = false := by
      cases hb : p.success
      · rfl
      · exact absurd hb hs
    simp [hs']

theorem executor_fold_filter (ps : List RoleProposal) :
    ∀ acc : FS × List String,
      (ps.filter dispatches).foldl executor_step acc = ps.foldl executor_step acc := by
  induction ps with
  | nil => intro acc; rfl
  | cons p rest ih =>
    intro acc
    by_cases hd : dispatches p = true
    · rw [List.filter_cons_of_pos hd, List.foldl_cons, List.foldl_cons, ih]
    · have hd' : dispatches p = false := by
        cases hb : dispatches p
        · rfl
        · exact absurd hb hd
      rw [List.filter_cons_of_neg (by simp [hd']), List.foldl_cons,
        executor_step_skip acc p hd', ih]

theorem implementer_step_mods (acc : FS × List String) (c : RoleFileChange) :
    (implementer_step acc c).2 = acc.2 ∨ (implementer_step acc c).2 = acc.2 ++ [c.file] := by
  unfold implementer_step
  by_cases h1 : c.action = "create"
  · simp [h1]
  · simp only [h1, if_false]
    by_cases h2 : (c.action = "modify" && fsExists acc.1 c.file) = true
    · rw [if_pos h2]
      cases hg : fsGet acc.1 c.file
      · simp
      · simp
    · rw [if_neg h2]
      simp

theorem documenter_step_mods (acc : FS × List String) (c : RoleFileChange) :
    (documenter_step acc c).2 = acc.2 ∨ (documenter_step acc c).2 = acc.2 ++ [c.file] := by
  unfold documenter_step
  by_cases h1 : c.action = "prepend"
  · simp only [h1, if_true]
    cases hg : fsGet acc.1 c.file
    · simp
    · simp
  · simp only [h1, if_false]
    by_cases h2 : (c.action = "update" && fsExists acc.1 c.file) = true
    · rw [if_pos h2]
      cases hg : fsGet acc.1 c.file
      · simp
      · simp
    · rw [if_neg h2]
      by_cases h3 : c.action = "create"
      · simp [h3]
      · simp [h3]

theorem implementer_fold_mods (cs : List RoleFileChange) :
    ∀ (acc : FS × List String) (q : String), q ∈ (cs.foldl implementer_step acc).2 →
      q ∈ acc.2 ∨ ∃ c ∈ cs, c.file = q := by
  induction cs with
  | nil => intro acc q hq; exact Or.inl hq
  | cons c rest ih =>
    intro acc q hq
    rw [List.foldl_cons] at hq
    rcases ih (implementer_step acc c) q hq with h | ⟨c2, hc2, hf2⟩
    · rcases implementer_step_mods acc c with hm | hm
      · rw [hm] at h
        exact Or.inl h
      · rw [hm] at h
        rcases List.mem_append.1 h with h2 | h2
        · exact Or.inl h2
        · have : q = c.file := by simpa using h2
          exact Or.inr ⟨c, List.mem_cons_self c rest, this.symm⟩
    · exact Or.inr ⟨c2, List.mem_cons_of_mem c hc2, hf2⟩

theorem documenter_fold_mods (cs : List RoleFileChange) :
    ∀ (acc : FS × List String) (q : String), q ∈ (cs.foldl documenter_step acc).2 →
      q ∈ acc.2 ∨ ∃ c ∈ cs, c.file = q := by
  induction cs with
  | nil => intro acc q hq; exact Or.inl hq
  | cons c rest ih =>
    intro acc q hq
    rw [List.foldl_cons] at hq
    rcases ih (documenter_step acc c) q hq with h | ⟨c2, hc2, hf2⟩
    · rcases documenter_step_mods acc c with hm | hm
      · rw [hm] at h
        exact Or.inl h
      · rw [hm] at h
        rcases List.mem_append.1 h with h2 | h2
        · exact Or.inl h2
        · have : q = c.file := by simpa using h2
          exact Or.inr ⟨c, List.mem_cons_self c rest, this.symm⟩
    · exact Or.inr ⟨c2, List.mem_cons_of_mem c hc2, hf2⟩

theorem executor_step_cases (acc : FS × List String) (p : RoleProposal) :
    executor_step acc p = acc ∨
    (dispatches p = true ∧
      ((roles_get p.role = some RoleKind.implementer ∧
        executor_step acc p =
          ((implementer_apply_changes acc.1 p.file_changes).1,
           acc.2 ++ (implementer_apply_changes acc.1 p.file_changes).2)) ∨
       (roles_get p.role = some RoleKind.documenter ∧
        executor_step acc p =
          ((documenter_apply_documentation acc.1 p.file_changes).1,
           acc.2 ++ (documenter_apply_documentation acc.1 p.file_changes).2)))) := by
  by_cases hd : dispatches p = true
  · right
    refine ⟨hd, ?_⟩
    unfold dispatches at hd
    rw [Bool.and_eq_true, Bool.and_eq_true] at hd
    obtain ⟨⟨hs, hie0⟩, hm⟩ := hd
    have hie : p.file_changes.isEmpty = false := by simpa using hie0
    unfold executor_step
    rw [hs, hie]
    simp only [Bool.not_true, Bool.false_or, Bool.false_eq_true, if_false]
    cases hr : roles_get p.role with
    | none => rw [hr] at hm; simp at hm
    | some k =>
      cases k with
      | architect => rw [hr] at hm; simp at hm
      | tester => rw [hr] at hm; simp at hm
      | implementer => exact Or.inl ⟨rfl, rfl⟩
      | documenter => exact Or.inr ⟨rfl, rfl⟩
  · have hd' : dispatches p = false := by
      cases hb : dispatches p
      · rfl
      · exact absurd hb hd
    exact Or.inl (executor_step_skip acc p hd')

theorem executor_fold_mods (ps : List RoleProposal) :
    ∀ (acc : FS × List String) (q : String), q ∈ (ps.foldl executor_step acc).2 →
      q ∈ acc.2 ∨ ∃ p ∈ ps, dispatches p = true ∧ ∃ c ∈ p.file_changes, c.file = q := by
  induction ps with
  | nil => intro acc q hq; exact Or.inl hq
  | cons p rest ih =>
    intro acc q hq
    rw [List.foldl_cons] at hq
    rcases ih (executor_step acc p) q hq with h | ⟨p2, hp2, hd2, hc2⟩
    · rcases executor_step_cases acc p with hcase | ⟨hd, hside⟩
      · rw [hcase] at h
        exact Or.inl h
      · rcases hside with ⟨hr, heq⟩ | ⟨hr, heq⟩
        · rw [heq] at h
          rcases List.mem_append.1 h with h2 | h2
          · exact Or.inl h2
          · rcases implementer_fold_mods p.file_changes (acc.1, []) q h2 with h3 | ⟨c, hc, hf⟩
            · simp at h3
            · exact Or.inr ⟨p, List.mem_cons_self p rest, hd, c, hc, hf⟩
        · rw [heq] at h
          rcases List.mem_append.1 h with h2 | h2
          · exact Or.inl h2
          · rcases documenter_fold_mods p.file_changes (acc.1, []) q h2 with h3 | ⟨c, hc, hf⟩
            · simp at h3
            · exact Or.inr ⟨p, List.mem_cons_self p rest, hd, c, hc, hf⟩
    · exact Or.inr ⟨p2, List.mem_cons_of_mem p hp2, hd2, hc2⟩

theorem implementer_step_frame (acc : FS × List String) (c : RoleFileChange)
    (q : String) (h : c.file ≠ q) :
    fsGet (implementer_step acc c).1 q = fsGet acc.1 q := by
  unfold implementer_step
  by_cases h1 : c.action = "create"
  · simp only [h1, if_true]
    rw [fsGet_fsWrite, if_neg h]
  · simp only [h1, if_false]
    by_cases h2 : (c.action = "modify" && fsExists acc.1 c.file) = true
    · rw [if_pos h2]
      cases hg : fsGet acc.1 c.file
      · rfl
      · simp only []
        rw [fsGet_fsWrite, if_neg h]
    · rw [if_neg h2]

theorem documenter_step_frame (acc : FS × List String) (c : RoleFileChange)
    (q : String) (h : c.file ≠ q) :
    fsGet (documenter_step acc c).1 q = fsGet acc.1 q := by
  unfold documenter_step
  by_cases h1 : c.action = "prepend"
  · simp only [h1, if_true]
    cases hg : fsGet acc.1 c.file
    · simp only []
      rw [fsGet_fsWrite, if_neg h]
    · simp only []
      rw [fsGet_fsWrite, if_neg h]
  · simp only [h1, if_false]
    by_cases h2 : (c.action = "update" && fsExists acc.1 c.file) = true
    · rw [if_pos h2]
      cases hg : fsGet acc.1 c.file
      · rfl
      · simp only []
        rw [fsGet_fsWrite, if_neg h]
    · rw [if_neg h2]
      by_cases h3 : c.action = "create"
      · simp only [h3, if_true]
        rw [fsGet_fsWrite, if_neg h]
      · simp only [h3, if_false]

theorem implementer_fold_frame (cs : List RoleFileChange) :
    ∀ (acc : FS × List String) (q : String), (∀ c ∈ cs, c.file ≠ q) →
      fsGet ((cs.foldl implementer_step acc).1) q = fsGet acc.1 q := by
  induction cs with
  | nil => intro acc q _; rfl
  | cons c rest ih =>
    intro acc q h
    rw [List.foldl_cons,
      ih (implementer_step acc c) q (fun c2 hc2 => h c2 (List.mem_cons_of_mem c hc2))]
    exact implementer_step_frame acc c q (h c (List.mem_cons_self c rest))

theorem documenter_fold_frame (cs : List RoleFileChange) :
    ∀ (acc : FS × List String) (q : String), (∀ c ∈ cs, c.file ≠ q) →
      fsGet ((cs.foldl documenter_step acc).1) q = fsGet acc.1 q := by
  induction cs with
  | nil => intro acc q _; rfl
  | cons c rest ih =>
    intro acc q h
    rw [List.foldl_cons,
      ih (documenter_step acc c) q (fun c2 hc2 => h c2 (List.mem_cons_of_mem c hc2))]
    exact documenter_step_frame acc c q (h c (List.mem_cons_self c rest))

theorem executor_fold_frame (ps : List RoleProposal) :
    ∀ (acc : FS × List String) (q : String),
      (∀ p ∈ ps, dispatches p = true → ∀ c ∈ p.file_changes, c.file ≠ q) →
      fsGet ((ps.foldl executor_step acc).1) q = fsGet acc.1 q := by
  induction ps with
  | nil => intro acc q _; rfl
  | cons p rest ih =>
    intro acc q h
    rw [List.foldl_cons,
      ih (executor_step acc p) q (fun p2 hp2 => h p2 (List.mem_cons_of_mem p hp2))]
    rcases executor_step_cases acc p with hcase | ⟨hd, hside⟩
    · rw [hcase]
    · have hfiles : ∀ c ∈ p.file_changes, c.file ≠ q :=
        h p (List.mem_cons_self p rest) hd
      rcases hside with ⟨hr, heq⟩ | ⟨hr, heq⟩
      · rw [heq]
        exact implementer_fold_frame p.file_changes (acc.1, []) q hfiles
      · rw [heq]
        exact documenter_fold_frame p.file_changes (acc.1, []) q hfiles

/-- C10: in linear mode, `Executor.apply_changes` applies only file changes
of successful proposals whose role resolves to the Implementer or Documenter
instance: dropping every other proposal leaves the result unchanged, every
path in the returned modified-files list comes from such a proposal, and any
path mentioned only by failed or architect/tester proposals is untouched in
the working copy. -/
theorem C10_executor_apply_scope (fs : FS) (proposals : List RoleProposal) :
    executor_apply_changes fs proposals
      = executor_apply_changes fs (proposals.filter dispatches) ∧
    (∀ q ∈ (executor_apply_changes fs proposals).2,
      ∃ p ∈ proposals, dispatches p = true ∧ ∃ c ∈ p.file_changes, c.file = q) ∧
    (∀ q, (∀ p ∈ proposals, dispatches p = true → ∀ c ∈ p.file_changes, c.file ≠ q) →
      fsGet (executor_apply_changes fs proposals).1 q = fsGet fs q) := by
  refine ⟨?_, ?_, ?_⟩
  · exact (executor_fold_filter proposals (fs, [])).symm
  · intro q hq
    rcases executor_fold_mods proposals (fs, []) q hq with h | h
    · simp at h
    · exact h
  · intro q hfr
    exact executor_fold_frame proposals (fs, []) q hfr

/-- Witness for C10: a successful architect proposal and a failed
implementer proposal both targeting "x" leave "x" untouched. -/
theorem C10_witness :
    fsGet (executor_apply_changes [("x", "0")]
        [{ role := "architect", task_id := "t1", success := true,
           file_changes := [{ file := "x", action := "create", description := "", content := "A" }] },
         { role := "implementer", task_id := "t2", success := false,
           file_changes := [{ file := "x", action := "create", description := "", content := "B" }] }]).1 "x"
      = fsGet [("x", "0")] "x" :=
  (C10_executor_apply_scope [("x", "0")]
      [{ role := "architect", task_id := "t1", success := true,
         file_changes := [{ file := "x", action := "create", description := "", content := "A" }] },
       { role := "implementer", task_id := "t2", success := false,
         file_changes := [{ file := "x", action := "create", description := "", content := "B" }] }]).2.2
    "x" (by decide)
